import Mathlib

/-!
Verification of the header/footer consensus detector and parse coordinator of
`pdf2docx/page/Pages.py` (class `Pages`), via a shallow embedding.

Strings are modelled as `List Char`.  Python `str.strip()` is modelled by
`strip` (ASCII whitespace), `re.sub(r'\d+', '1', s)` by `subDigits` (decimal
digits `0`-`9`), `collections.Counter` by occurrence counting over the list of
tallied signatures, and `int(num_pages * 0.4)` by exact rational truncation
`2 * n / 5` (for page counts far below 2^50 the IEEE double product `n * 0.4`
truncates to the same integer, since `0.4 * n` is a multiple of `0.2` and the
rounding error is far smaller than `0.2`).
-/

/-- Python `str.strip()` on a `List Char`: drop leading and trailing whitespace. -/
def strip (l : List Char) : List Char :=
  ((l.dropWhile Char.isWhitespace).reverse.dropWhile Char.isWhitespace).reverse

/-- State-machine form of `re.sub(r'\d+', '1', s)`: when `inRun` is set we are
inside a maximal digit run whose canonical `'1'` has already been emitted. -/
def subDigitsAux (inRun : Bool) : List Char → List Char
  | [] => []
  | c :: cs =>
    if c.isDigit then
      if inRun then subDigitsAux true cs else '1' :: subDigitsAux true cs
    else
      c :: subDigitsAux false cs

/-- `re.sub(r'\d+', '1', s)`: collapse every maximal run of decimal digits to `'1'`. -/
def subDigits (l : List Char) : List Char := subDigitsAux false l

/-- The signature of a block text, from `Pages._parse_header_footer`:
`re.sub(r'\d+', '1', block.text.strip())`. -/
def sig (t : List Char) : List Char := subDigits (strip t)

/-- A content block: bounding box `(x0, y0, x1, y1)` and optional text. -/
structure Block where
  x0 : Int
  y0 : Int
  x1 : Int
  y1 : Int
  text : Option (List Char)
deriving DecidableEq

/-- A raw page as seen by `Pages._parse_header_footer`: its block collection,
its bottom edge `page.bbox[3]`, and the mutable `header` / `footer` fields. -/
structure RawPage where
  blocks : List Block
  bbox3 : Int
  header : Int
  footer : Int
deriving DecidableEq

/-- Modelled from the spec: `RawPageFactory` / `RawPage` construction is not under
`src/`; per the detector contract the header boundary defaults to 0 and the footer
boundary defaults to the page's bottom edge. -/
def initRawPage (blocks : List Block) (bbox3 : Int) : RawPage :=
  { blocks := blocks, bbox3 := bbox3, header := 0, footer := bbox3 }

/-- Reading-order comparison: top-to-bottom, then left-to-right. -/
def readingLE (a b : Block) : Bool :=
  if a.y0 < b.y0 then true
  else if b.y0 < a.y0 then false
  else decide (a.x0 ≤ b.x0)

/-- Insert a block into a reading-order-sorted list. -/
def orderedInsertRO (b : Block) : List Block → List Block
  | [] => [b]
  | c :: l => if readingLE b c then b :: c :: l else c :: orderedInsertRO b l

/-- Modelled from the spec: `Collection.sort_in_reading_order` lives in
`common/Collection.py`, which is not under `src/`; the spec's glossary defines
reading order as top-to-bottom, then left-to-right, modelled here as a stable
insertion sort on the key `(y0, x0)`. -/
def sort_in_reading_order : List Block → List Block
  | [] => []
  | b :: l => orderedInsertRO b (sort_in_reading_order l)

/-- The header candidate window: `blocks[i]` for `i in range(3)` with `i < len(blocks)`,
after sorting in reading order. -/
def headerWindow (p : RawPage) : List Block :=
  (sort_in_reading_order p.blocks).take 3

/-- The footer candidate window: `blocks[-(i+1)]` for `i in range(3)` with
`i < len(blocks)`, after sorting in reading order. -/
def footerWindow (p : RawPage) : List Block :=
  (sort_in_reading_order p.blocks).reverse.take 3

/-- The signatures one page contributes to the header tally: one per
header-window block whose text is not `None` (the `if not elements: continue`
guard of the source is kept, though a page with no blocks has an empty window
anyway). -/
def headerSigs (p : RawPage) : List (List Char) :=
  if p.blocks.isEmpty then []
  else (headerWindow p).filterMap (fun b => b.text.map sig)

/-- The signatures one page contributes to the footer tally. -/
def footerSigs (p : RawPage) : List (List Char) :=
  if p.blocks.isEmpty then []
  else (footerWindow p).filterMap (fun b => b.text.map sig)

/-- The header `Counter` after the tally pass: occurrences of a signature
across all pages' header windows (a missing key counts 0, as in Python). -/
def headerTally (ps : List RawPage) (s : List Char) : Nat :=
  (ps.map (fun p => (headerSigs p).count s)).sum

/-- The footer `Counter` after the tally pass. -/
def footerTally (ps : List RawPage) (s : List Char) : Nat :=
  (ps.map (fun p => (footerSigs p).count s)).sum

/-- The threshold of `Pages._parse_header_footer`:
`threshold = int(num_pages * 0.4) if num_pages > 10 else 4`, overridden by
`threshold = num_pages` when `1 < num_pages <= 3`.  The float truncation
`int(n * 0.4)` is modelled exactly as `2 * n / 5` (natural division). -/
def threshold (n : Nat) : Nat :=
  let t := if 10 < n then 2 * n / 5 else 4
  if 1 < n ∧ n ≤ 3 then n else t

/-- The spec's piecewise threshold rule, stated in its own words:
`n` in `[2,3]` gives `n`; `n > 10` gives `floor(0.4 * n)`; otherwise 4. -/
def thresholdSpec (n : Nat) : Nat :=
  if n = 2 ∨ n = 3 then n
  else if 10 < n then 2 * n / 5
  else 4

/-- The blocks of page `p` classified as header in the classification pass:
header-window blocks whose text is not `None` and whose signature's
header-tally count strictly exceeds the threshold. -/
def headerBlocksOf (ps : List RawPage) (p : RawPage) : List Block :=
  (headerWindow p).filter (fun b =>
    match b.text with
    | none => false
    | some t => decide (threshold ps.length < headerTally ps (sig t)))

/-- The blocks of page `p` classified as footer in the classification pass. -/
def footerBlocksOf (ps : List RawPage) (p : RawPage) : List Block :=
  (footerWindow p).filter (fun b =>
    match b.text with
    | none => false
    | some t => decide (threshold ps.length < footerTally ps (sig t)))

/-- Python `max(l, default=d)`. -/
def maxD (d : Int) : List Int → Int
  | [] => d
  | x :: xs => xs.foldl max x

/-- Python `min(l, default=d)`. -/
def minD (d : Int) : List Int → Int
  | [] => d
  | x :: xs => xs.foldl min x

/-- One page's update in the classification pass of `Pages._parse_header_footer`:
a page with no blocks is skipped (`continue`), otherwise
`page.header = max([b.bbox[3] for b in header_blocks], default=0)` and
`page.footer = min([b.bbox[1] for b in footer_blocks], default=page.bbox[3])`. -/
def parseHeaderFooterPage (ps : List RawPage) (p : RawPage) : RawPage :=
  if p.blocks.isEmpty then p
  else
    { p with
      header := maxD 0 ((headerBlocksOf ps p).map Block.y1),
      footer := minD p.bbox3 ((footerBlocksOf ps p).map Block.y0) }

/-- `Pages._parse_header_footer` over the whole document. -/
def parse_header_footer (ps : List RawPage) : List RawPage :=
  ps.map (parseHeaderFooterPage ps)

/-- True iff the list starts with a decimal digit. -/
def headIsDigit : List Char → Bool
  | [] => false
  | c :: _ => c.isDigit

/-- Two texts differ only in their digit runs: they decompose into the same
interleaving of pointwise-equal non-digit characters and aligned maximal
(nonempty) digit runs whose contents may differ. -/
inductive DigitRunEquiv : List Char → List Char → Prop where
  | nil : DigitRunEquiv [] []
  | cons {c : Char} {s t : List Char} :
      c.isDigit = false → DigitRunEquiv s t → DigitRunEquiv (c :: s) (c :: t)
  | run (ds es : List Char) {s t : List Char} :
      ds ≠ [] → es ≠ [] →
      ds.all Char.isDigit = true → es.all Char.isDigit = true →
      headIsDigit s = false → headIsDigit t = false →
      DigitRunEquiv s t → DigitRunEquiv (ds ++ s) (es ++ t)

/-- A document page record as mutated by `Pages.parse`. -/
structure DocPage where
  id : Nat
  skip_parsing : Bool
  width : Int
  height : Int
  margin : Int
  sections : List Nat
  float_images : List Nat
deriving DecidableEq

/-- Modelled from the spec: the external collaborators of `Pages.parse`
(`RawPageFactory.create` / `restore` / `clean_up` / `process_font`,
`calculate_margin`, `parse_section`) are not under `src/`; their outputs are
modelled as opaque functions of the page id.  Margins, sections and floating
images are opaque payloads (`Int` / `List Nat`). -/
structure ContentSource where
  raw_text : Nat → List Char
  raw_width : Nat → Int
  raw_height : Nat → Int
  floating_image_blocks : Nat → List Nat
  calculate_margin : Nat → Int
  parse_section : Nat → List Nat

/-- The effect of one `Pages.parse` run on a single page: a page with
`skip_parsing` set is skipped (`continue`), otherwise its width, height,
floating images (reset then extended), margin and sections (extended) are
written from the collaborators' outputs. -/
def parse_one (src : ContentSource) (p : DocPage) : DocPage :=
  if p.skip_parsing then p
  else
    { p with
      width := src.raw_width p.id,
      height := src.raw_height p.id,
      float_images := src.floating_image_blocks p.id,
      margin := src.calculate_margin p.id,
      sections := p.sections ++ src.parse_section p.id }

/-- The `words_found` flag of `Pages.parse`: set once some non-skipped page's
`raw_text.strip()` is truthy (nonempty). -/
def words_found (src : ContentSource) (ps : List DocPage) : Bool :=
  ps.foldl (fun acc p => acc || (!p.skip_parsing && !(strip (src.raw_text p.id)).isEmpty)) false

/-- `Pages.parse`: the mutated pages together with the number of
`logging.warning` calls emitted (one iff no words were found). -/
def parse (src : ContentSource) (ps : List DocPage) : List DocPage × Nat :=
  (ps.map (parse_one src), if words_found src ps then 0 else 1)

/-- Membership in an ordered insertion. -/
theorem mem_orderedInsertRO {x b : Block} {l : List Block} :
    x ∈ orderedInsertRO b l ↔ x = b ∨ x ∈ l := by
  induction l with
  | nil => simp [orderedInsertRO]
  | cons c l ih =>
    by_cases h : readingLE b c = true
    · simp [orderedInsertRO, h]
    · simp only [orderedInsertRO, if_neg h, List.mem_cons, ih]
      tauto

/-- Sorting in reading order preserves membership. -/
theorem mem_sort_in_reading_order {x : Block} {l : List Block} :
    x ∈ sort_in_reading_order l ↔ x ∈ l := by
  induction l with
  | nil => simp [sort_in_reading_order]
  | cons b l ih => simp [sort_in_reading_order, mem_orderedInsertRO, ih]

/-- A block in the header window is a block of the page. -/
theorem mem_of_mem_headerWindow {b : Block} {p : RawPage} (h : b ∈ headerWindow p) :
    b ∈ p.blocks :=
  mem_sort_in_reading_order.mp (List.mem_of_mem_take h)

/-- A block in the footer window is a block of the page. -/
theorem mem_of_mem_footerWindow {b : Block} {p : RawPage} (h : b ∈ footerWindow p) :
    b ∈ p.blocks :=
  mem_sort_in_reading_order.mp (List.mem_reverse.mp (List.mem_of_mem_take h))

/-- A page whose header window is inhabited has blocks. -/
theorem blocks_ne_nil_of_mem_headerWindow {b : Block} {p : RawPage}
    (h : b ∈ headerWindow p) : p.blocks.isEmpty = false := by
  have := mem_of_mem_headerWindow h
  cases hb : p.blocks with
  | nil => rw [hb] at this; cases this
  | cons _ _ => rfl

/-- A page whose footer window is inhabited has blocks. -/
theorem blocks_ne_nil_of_mem_footerWindow {b : Block} {p : RawPage}
    (h : b ∈ footerWindow p) : p.blocks.isEmpty = false := by
  have := mem_of_mem_footerWindow h
  cases hb : p.blocks with
  | nil => rw [hb] at this; cases this
  | cons _ _ => rfl

/-- An upper bound on all entries bounds a fold of `max`. -/
theorem foldl_max_le {c : Int} : ∀ (l : List Int) (a : Int),
    a ≤ c → (∀ x ∈ l, x ≤ c) → l.foldl max a ≤ c := by
  intro l
  induction l with
  | nil => intro a ha _; simpa using ha
  | cons x xs ih =>
    intro a ha h
    simp only [List.foldl_cons]
    exact ih (max a x) (max_le ha (h x (by simp))) (fun y hy => h y (by simp [hy]))

/-- A lower bound on all entries bounds a fold of `min`. -/
theorem le_foldl_min {c : Int} : ∀ (l : List Int) (a : Int),
    c ≤ a → (∀ x ∈ l, c ≤ x) → c ≤ l.foldl min a := by
  intro l
  induction l with
  | nil => intro a ha _; simpa using ha
  | cons x xs ih =>
    intro a ha h
    simp only [List.foldl_cons]
    exact ih (min a x) (le_min ha (h x (by simp))) (fun y hy => h y (by simp [hy]))

/-- `maxD` over a nonempty list is bounded by any bound on the entries. -/
theorem maxD_cons_le {c d a : Int} {l : List Int}
    (h : ∀ x ∈ a :: l, x ≤ c) : maxD d (a :: l) ≤ c :=
  foldl_max_le l a (h a (by simp)) (fun x hx => h x (by simp [hx]))

/-- `minD` over a nonempty list is bounded below by any lower bound on the entries. -/
theorem le_minD_cons {c d a : Int} {l : List Int}
    (h : ∀ x ∈ a :: l, c ≤ x) : c ≤ minD d (a :: l) :=
  le_foldl_min l a (h a (by simp)) (fun x hx => h x (by simp [hx]))

/-- A member of a list of naturals is at most the sum. -/
theorem le_sum_of_mem_nat {l : List Nat} {x : Nat} (h : x ∈ l) : x ≤ l.sum := by
  induction l with
  | nil => cases h
  | cons a l ih =>
    rcases List.mem_cons.mp h with rfl | h'
    · simp [List.sum_cons]
    · calc x ≤ l.sum := ih h'
        _ ≤ a + l.sum := Nat.le_add_left _ _
        _ = (a :: l).sum := (List.sum_cons).symm

/-- A page contributes at most 3 signatures to the header tally. -/
theorem headerSigs_length_le (p : RawPage) : (headerSigs p).length ≤ 3 := by
  unfold headerSigs
  split
  · simp
  · calc ((headerWindow p).filterMap (fun b => b.text.map sig)).length
        ≤ (headerWindow p).length := List.length_filterMap_le _ _
      _ ≤ 3 := by simp [headerWindow]

/-- A page contributes at most 3 signatures to the footer tally. -/
theorem footerSigs_length_le (p : RawPage) : (footerSigs p).length ≤ 3 := by
  unfold footerSigs
  split
  · simp
  · calc ((footerWindow p).filterMap (fun b => b.text.map sig)).length
        ≤ (footerWindow p).length := List.length_filterMap_le _ _
      _ ≤ 3 := by simp [footerWindow]

/-- Sum bound: if every page contributes at most 3, the total is at most `3 * n`. -/
theorem sum_count_le_three_mul (ps : List RawPage) (f : RawPage → Nat)
    (h : ∀ p, f p ≤ 3) : (ps.map f).sum ≤ 3 * ps.length := by
  induction ps with
  | nil => simp
  | cons p ps ih =>
    simp only [List.map_cons, List.sum_cons, List.length_cons]
    calc f p + (ps.map f).sum ≤ 3 + 3 * ps.length := Nat.add_le_add (h p) ih
      _ = 3 * (ps.length + 1) := by ring

/-- C2: the detector's threshold follows the spec's piecewise rule: `n` for `n`
in `[2,3]`, `floor(0.4 * n)` for `n > 10`, and 4 otherwise; in particular
`threshold 2 = 2`, `threshold 3 = 3`, `threshold 4 = 4`, `threshold 11 = 4`
and `threshold 20 = 8`. -/
theorem C2_threshold_piecewise :
    (∀ n, threshold n = thresholdSpec n) ∧
    threshold 2 = 2 ∧ threshold 3 = 3 ∧ threshold 4 = 4 ∧
    threshold 11 = 4 ∧ threshold 20 = 8 := by
  refine ⟨fun n => ?_, by decide, by decide, by decide, by decide, by decide⟩
  simp only [threshold, thresholdSpec]
  split_ifs <;> omega

/-- A single block carrying the text `"x"`. -/
def exBlockX : Block := { x0 := 0, y0 := 10, x1 := 5, y1 := 20, text := some "x".toList }

/-- A page holding only `exBlockX`, with bottom edge 100. -/
def exPageX : RawPage := { blocks := [exBlockX], bbox3 := 100, header := 0, footer := 100 }

/-- A 5-page document all of whose pages equal `exPageX`. -/
def exDocX : List RawPage := List.replicate 5 exPageX

/-- C1: for a page of the document with blocks, a candidate block with non-null
text is classified header iff its signature's header-tally count strictly
exceeds the threshold (symmetrically footer), and the page's header boundary is
the maximum bottom-y over header-classified blocks (default 0) while its footer
boundary is the minimum top-y over footer-classified blocks (default the page's
bottom edge). -/
theorem C1_classification_and_boundaries (ps : List RawPage) (p : RawPage)
    (_hp : p ∈ ps) (hb : p.blocks ≠ []) :
    (∀ b ∈ headerWindow p, ∀ t, b.text = some t →
      (b ∈ headerBlocksOf ps p ↔ threshold ps.length < headerTally ps (sig t))) ∧
    (∀ b ∈ footerWindow p, ∀ t, b.text = some t →
      (b ∈ footerBlocksOf ps p ↔ threshold ps.length < footerTally ps (sig t))) ∧
    (parseHeaderFooterPage ps p).header = maxD 0 ((headerBlocksOf ps p).map Block.y1) ∧
    (parseHeaderFooterPage ps p).footer = minD p.bbox3 ((footerBlocksOf ps p).map Block.y0) := by
  have hbe : p.blocks.isEmpty = false := by
    cases h : p.blocks with
    | nil => exact absurd h hb
    | cons _ _ => rfl
  refine ⟨?_, ?_, ?_, ?_⟩
  · intro b hbw t ht
    simp [headerBlocksOf, List.mem_filter, hbw, ht]
  · intro b hbw t ht
    simp [footerBlocksOf, List.mem_filter, hbw, ht]
  · simp [parseHeaderFooterPage, hbe]
  · simp [parseHeaderFooterPage, hbe]

/-- Witness for C1 at a concrete 5-page document. -/
theorem C1_classification_and_boundaries_witness :
    (parseHeaderFooterPage exDocX exPageX).header
      = maxD 0 ((headerBlocksOf exDocX exPageX).map Block.y1) :=
  (C1_classification_and_boundaries exDocX exPageX (by decide) (by decide)).2.2.1

/-- Counterexample to C3: in a 5-page document whose single block repeats on
every page, that block is classified both header and footer; the resulting
header boundary (its bottom-y, 20) exceeds the footer boundary (its top-y, 10)
although both are non-default. -/
theorem C3_boundary_order_cex :
    exPageX ∈ exDocX ∧
    0 < (parseHeaderFooterPage exDocX exPageX).header ∧
    (parseHeaderFooterPage exDocX exPageX).footer < exPageX.bbox3 ∧
    ¬ ((parseHeaderFooterPage exDocX exPageX).header ≤
        (parseHeaderFooterPage exDocX exPageX).footer) := by
  decide

/-- C3 amended: whenever both boundaries are non-default and every
header-classified block of the page lies above every footer-classified block
(bottom-y at most top-y), the header boundary is at most the footer boundary. -/
theorem C3_boundary_order_amended (ps : List RawPage) (p : RawPage)
    (_hp : p ∈ ps) (hne : p.blocks ≠ [])
    (hsep : ∀ a ∈ headerBlocksOf ps p, ∀ c ∈ footerBlocksOf ps p, a.y1 ≤ c.y0)
    (hh : 0 < (parseHeaderFooterPage ps p).header)
    (hf : (parseHeaderFooterPage ps p).footer < p.bbox3) :
    (parseHeaderFooterPage ps p).header ≤ (parseHeaderFooterPage ps p).footer := by
  have hbe : p.blocks.isEmpty = false := by
    cases h : p.blocks with
    | nil => exact absurd h hne
    | cons _ _ => rfl
  have hH : (parseHeaderFooterPage ps p).header
      = maxD 0 ((headerBlocksOf ps p).map Block.y1) := by
    simp [parseHeaderFooterPage, hbe]
  have hF : (parseHeaderFooterPage ps p).footer
      = minD p.bbox3 ((footerBlocksOf ps p).map Block.y0) := by
    simp [parseHeaderFooterPage, hbe]
  rw [hH] at hh ⊢
  rw [hF] at hf ⊢
  cases hhs : (headerBlocksOf ps p).map Block.y1 with
  | nil => rw [hhs] at hh; simp [maxD] at hh
  | cons a l =>
    cases hfs : (footerBlocksOf ps p).map Block.y0 with
    | nil => rw [hfs] at hf; simp [minD] at hf
    | cons b m =>
      apply maxD_cons_le
      intro x hx
      apply le_minD_cons
      intro y hy
      have hx' : x ∈ (headerBlocksOf ps p).map Block.y1 := by rw [hhs]; exact hx
      have hy' : y ∈ (footerBlocksOf ps p).map Block.y0 := by rw [hfs]; exact hy
      obtain ⟨ba, hba, rfl⟩ := List.mem_map.mp hx'
      obtain ⟨bc, hbc, rfl⟩ := List.mem_map.mp hy'
      exact hsep ba hba bc hbc

/-- Seven blocks per page, distinct texts, the first three strictly above the
last three. -/
def exSepBlocks : List Block :=
  [ { x0 := 0, y0 := 0,  x1 := 5, y1 := 10, text := some "a".toList },
    { x0 := 0, y0 := 10, x1 := 5, y1 := 20, text := some "b".toList },
    { x0 := 0, y0 := 20, x1 := 5, y1 := 30, text := some "c".toList },
    { x0 := 0, y0 := 40, x1 := 5, y1 := 50, text := some "d".toList },
    { x0 := 0, y0 := 50, x1 := 5, y1 := 60, text := some "e".toList },
    { x0 := 0, y0 := 60, x1 := 5, y1 := 70, text := some "f".toList },
    { x0 := 0, y0 := 75, x1 := 5, y1 := 85, text := some "g".toList } ]

/-- A page holding `exSepBlocks`, bottom edge 100. -/
def exSepPage : RawPage := { blocks := exSepBlocks, bbox3 := 100, header := 0, footer := 100 }

/-- A 5-page document all of whose pages equal `exSepPage`. -/
def exSepDoc : List RawPage := List.replicate 5 exSepPage

/-- Witness for the amended C3 at a concrete 5-page document with separated
header and footer blocks. -/
theorem C3_boundary_order_amended_witness :
    (parseHeaderFooterPage exSepDoc exSepPage).header ≤
      (parseHeaderFooterPage exSepDoc exSepPage).footer :=
  C3_boundary_order_amended exSepDoc exSepPage (by decide) (by decide)
    (by decide) (by decide) (by decide)

/-- A block whose text is whitespace-only (three spaces). -/
def exWsBlock : Block := { x0 := 0, y0 := 10, x1 := 5, y1 := 20, text := some "   ".toList }

/-- A page holding only `exWsBlock`, bottom edge 100. -/
def exWsPage : RawPage := { blocks := [exWsBlock], bbox3 := 100, header := 0, footer := 100 }

/-- A 5-page document all of whose pages equal `exWsPage`. -/
def exWsDoc : List RawPage := List.replicate 5 exWsPage

/-- Counterexample to C4: a candidate block whose text is whitespace-only
(empty after trimming) is tallied (under the empty signature) and classified,
because the code only excludes `None` text; here it drives the header boundary
to 20. -/
theorem C4_whitespace_cex :
    strip "   ".toList = [] ∧
    headerTally exWsDoc (sig "   ".toList) = 5 ∧
    exWsBlock ∈ headerBlocksOf exWsDoc exWsPage ∧
    (parseHeaderFooterPage exWsDoc exWsPage).header = 20 := by
  decide

/-- C4 amended: a candidate block is excluded from tally and classification iff
its text is null; a block with non-null text participates even when the text is
whitespace-only — it contributes its signature to the tally (count at least 1)
and is classified iff that signature's tally strictly exceeds the threshold. -/
theorem C4_participation_amended (ps : List RawPage) (p : RawPage) (hp : p ∈ ps) :
    (∀ b ∈ headerWindow p, b.text = none → b ∉ headerBlocksOf ps p) ∧
    (∀ b ∈ footerWindow p, b.text = none → b ∉ footerBlocksOf ps p) ∧
    (∀ b ∈ headerWindow p, ∀ t, b.text = some t →
      1 ≤ headerTally ps (sig t) ∧
      (b ∈ headerBlocksOf ps p ↔ threshold ps.length < headerTally ps (sig t))) ∧
    (∀ b ∈ footerWindow p, ∀ t, b.text = some t →
      1 ≤ footerTally ps (sig t) ∧
      (b ∈ footerBlocksOf ps p ↔ threshold ps.length < footerTally ps (sig t))) := by
  refine ⟨?_, ?_, ?_, ?_⟩
  · intro b _ hnone hmem
    simp [headerBlocksOf, List.mem_filter, hnone] at hmem
  · intro b _ hnone hmem
    simp [footerBlocksOf, List.mem_filter, hnone] at hmem
  · intro b hbw t ht
    have hbe := blocks_ne_nil_of_mem_headerWindow hbw
    refine ⟨?_, by simp [headerBlocksOf, List.mem_filter, hbw, ht]⟩
    have hmemSig : sig t ∈ headerSigs p := by
      unfold headerSigs
      rw [hbe]
      simp only [Bool.false_eq_true, if_false]
      exact List.mem_filterMap.mpr ⟨b, hbw, by rw [ht]; rfl⟩
    have hcount : 1 ≤ (headerSigs p).count (sig t) :=
      List.count_pos_iff.mpr hmemSig
    have hsum : (headerSigs p).count (sig t)
        ∈ ps.map (fun q => (headerSigs q).count (sig t)) :=
      List.mem_map_of_mem _ hp
    exact le_trans hcount (le_sum_of_mem_nat hsum)
  · intro b hbw t ht
    have hbe := blocks_ne_nil_of_mem_footerWindow hbw
    refine ⟨?_, by simp [footerBlocksOf, List.mem_filter, hbw, ht]⟩
    have hmemSig : sig t ∈ footerSigs p := by
      unfold footerSigs
      rw [hbe]
      simp only [Bool.false_eq_true, if_false]
      exact List.mem_filterMap.mpr ⟨b, hbw, by rw [ht]; rfl⟩
    have hcount : 1 ≤ (footerSigs p).count (sig t) :=
      List.count_pos_iff.mpr hmemSig
    have hsum : (footerSigs p).count (sig t)
        ∈ ps.map (fun q => (footerSigs q).count (sig t)) :=
      List.mem_map_of_mem _ hp
    exact le_trans hcount (le_sum_of_mem_nat hsum)

/-- Witness for the amended C4: the whitespace-only block contributes its
(empty) signature to the tally. -/
theorem C4_participation_amended_witness :
    1 ≤ headerTally exWsDoc (sig "   ".toList) :=
  ((C4_participation_amended exWsDoc exWsPage (by decide)).2.2.1
    exWsBlock (by decide) "   ".toList rfl).1

/-- A page with three blocks all carrying the text `"a"`. -/
def exTriPage : RawPage :=
  { blocks :=
      [ { x0 := 0, y0 := 0,  x1 := 5, y1 := 10, text := some "a".toList },
        { x0 := 0, y0 := 10, x1 := 5, y1 := 20, text := some "a".toList },
        { x0 := 0, y0 := 20, x1 := 5, y1 := 30, text := some "a".toList } ],
    bbox3 := 100, header := 0, footer := 100 }

/-- Counterexample to C5: on a single-page document whose three window blocks
share one signature, that signature's header-tally count is 3, which exceeds
the number of analyzed pages (1). -/
theorem C5_tally_bound_cex :
    headerTally [exTriPage] (sig "a".toList) = 3 ∧
    ¬ (headerTally [exTriPage] (sig "a".toList) ≤ ([exTriPage] : List RawPage).length) := by
  decide

/-- C5 amended: each tally pass adds at most 3 counts per page (one per window
position), so every signature's tally count is at most 3 times the number of
analyzed pages. -/
theorem C5_tally_bound_amended (ps : List RawPage) (s : List Char) :
    headerTally ps s ≤ 3 * ps.length ∧ footerTally ps s ≤ 3 * ps.length := by
  constructor
  · exact sum_count_le_three_mul ps _ (fun p =>
      le_trans (List.count_le_length _ _) (headerSigs_length_le p))
  · exact sum_count_le_three_mul ps _ (fun p =>
      le_trans (List.count_le_length _ _) (footerSigs_length_le p))

/-- Counterexample to C6: `exWsPage` has no qualifying block in the spec's
sense (its only block's text is empty after trimming), yet in `exWsDoc` it does
not receive the default boundaries: its header boundary becomes 20. -/
theorem C6_default_boundaries_cex :
    (∀ b ∈ exWsPage.blocks, ∀ t, b.text = some t → strip t = []) ∧
    (parseHeaderFooterPage exWsDoc exWsPage).header ≠ 0 := by
  decide

/-- C6 amended: a page none of whose blocks carries non-null text (in
particular a page with zero blocks) contributes no tally entries and receives
the default boundaries — header 0 and footer equal to the page's bottom edge —
regardless of the other pages' content. -/
theorem C6_default_boundaries_amended (ps : List RawPage) (bs : List Block) (e : Int)
    (h : ∀ b ∈ bs, b.text = none) :
    headerSigs (initRawPage bs e) = [] ∧
    footerSigs (initRawPage bs e) = [] ∧
    (parseHeaderFooterPage ps (initRawPage bs e)).header = 0 ∧
    (parseHeaderFooterPage ps (initRawPage bs e)).footer = e := by
  have hw : ∀ b ∈ headerWindow (initRawPage bs e), b.text = none := fun b hb =>
    h b (mem_of_mem_headerWindow hb)
  have hwf : ∀ b ∈ footerWindow (initRawPage bs e), b.text = none := fun b hb =>
    h b (mem_of_mem_footerWindow hb)
  have h1 : headerSigs (initRawPage bs e) = [] := by
    unfold headerSigs
    split
    · rfl
    · exact List.filterMap_eq_nil_iff.mpr (fun b hb => by rw [hw b hb]; rfl)
  have h2 : footerSigs (initRawPage bs e) = [] := by
    unfold footerSigs
    split
    · rfl
    · exact List.filterMap_eq_nil_iff.mpr (fun b hb => by rw [hwf b hb]; rfl)
  have h3 : headerBlocksOf ps (initRawPage bs e) = [] := by
    unfold headerBlocksOf
    refine List.filter_eq_nil_iff.mpr ?_
    intro b hb
    rw [hw b hb]
    simp
  have h4 : footerBlocksOf ps (initRawPage bs e) = [] := by
    unfold footerBlocksOf
    refine List.filter_eq_nil_iff.mpr ?_
    intro b hb
    rw [hwf b hb]
    simp
  simp only [initRawPage] at h3 h4
  refine ⟨h1, h2, ?_, ?_⟩ <;>
    cases bs with
    | nil => simp [parseHeaderFooterPage, initRawPage]
    | cons b l => simp [parseHeaderFooterPage, initRawPage, h3, h4, maxD, minD]

/-- Witness for the amended C6 at a text-free single-block page. -/
theorem C6_default_boundaries_amended_witness :
    (parseHeaderFooterPage []
      (initRawPage [{ x0 := 0, y0 := 0, x1 := 5, y1 := 10, text := none }] 50)).header = 0 :=
  (C6_default_boundaries_amended []
    [{ x0 := 0, y0 := 0, x1 := 5, y1 := 10, text := none }] 50 (by decide)).2.2.1

/-- Entering a digit-free position, the run flag is irrelevant. -/
theorem subDigitsAux_true_of_headFree {s : List Char} (h : headIsDigit s = false) :
    subDigitsAux true s = subDigitsAux false s := by
  cases s with
  | nil => rfl
  | cons c cs =>
    have hc : c.isDigit = false := h
    simp [subDigitsAux, hc]

/-- Inside a run, a digit-only prefix is swallowed. -/
theorem subDigitsAux_true_append {ds : List Char} (h : ds.all Char.isDigit = true)
    (s : List Char) : subDigitsAux true (ds ++ s) = subDigitsAux true s := by
  induction ds with
  | nil => rfl
  | cons d rest ih =>
    have h' : d.isDigit = true ∧ rest.all Char.isDigit = true := by
      simpa [List.all_cons] using h
    simp [subDigitsAux, h'.1, ih h'.2]

/-- A nonempty digit-only prefix collapses to a single canonical digit. -/
theorem subDigits_run_append {ds : List Char} (hne : ds ≠ [])
    (h : ds.all Char.isDigit = true) (s : List Char) :
    subDigitsAux false (ds ++ s) = '1' :: subDigitsAux true s := by
  cases ds with
  | nil => exact absurd rfl hne
  | cons d rest =>
    have h' : d.isDigit = true ∧ rest.all Char.isDigit = true := by
      simpa [List.all_cons] using h
    simp [subDigitsAux, h'.1, subDigitsAux_true_append h'.2 s]

/-- Digit-run-equivalent texts have equal digit collapses. -/
theorem DigitRunEquiv.subDigits_eq {s t : List Char} (h : DigitRunEquiv s t) :
    subDigits s = subDigits t := by
  induction h with
  | nil => rfl
  | cons hc _ ih =>
    simp only [subDigits, subDigitsAux, hc] at ih ⊢
    simp [ih]
  | run ds es hdne hene hdall heall hhs hht _ ih =>
    simp only [subDigits] at ih ⊢
    rw [subDigits_run_append hdne hdall, subDigits_run_append hene heall,
      subDigitsAux_true_of_headFree hhs, subDigitsAux_true_of_headFree hht, ih]

/-- C7: the signature is a pure function of the block text — trim, then
collapse every maximal digit run to one canonical digit — so texts that differ
only in their digit runs get equal signatures. -/
theorem C7_signature_digit_canonical (s t : List Char)
    (h : DigitRunEquiv (strip s) (strip t)) : sig s = sig t :=
  h.subDigits_eq

/-- Witness for C7: `"Page 1 of 10"` and `"Page 2 of 10"` have equal signatures. -/
theorem C7_signature_digit_canonical_witness :
    sig "Page 1 of 10".toList = sig "Page 2 of 10".toList := by
  apply C7_signature_digit_canonical
  show DigitRunEquiv "Page 1 of 10".toList "Page 2 of 10".toList
  exact .cons (by decide) (.cons (by decide) (.cons (by decide) (.cons (by decide)
    (.cons (by decide) (.run ['1'] ['2'] (by decide) (by decide) (by decide) (by decide)
      (by decide) (by decide)
      (.cons (by decide) (.cons (by decide) (.cons (by decide) (.cons (by decide)
        (.run ['1', '0'] ['1', '0'] (by decide) (by decide) (by decide) (by decide)
          (by decide) (by decide) .nil))))))))))

/-- A left fold of boolean-or is the disjunction of the seed and `any`. -/
theorem foldl_or_eq (f : DocPage → Bool) : ∀ (ps : List DocPage) (b : Bool),
    ps.foldl (fun acc p => acc || f p) b = (b || ps.any f) := by
  intro ps
  induction ps with
  | nil => intro b; simp
  | cons p ps ih => intro b; simp [List.foldl_cons, ih, Bool.or_assoc]

/-- C8: exactly one non-fatal warning is emitted iff no non-skipped page
yielded non-whitespace raw text, none otherwise, and the pages are processed
either way (the run never aborts). -/
theorem C8_warning_iff_no_text (src : ContentSource) (ps : List DocPage) :
    ((parse src ps).2 = 1 ↔
      ∀ p ∈ ps, p.skip_parsing = false → strip (src.raw_text p.id) = []) ∧
    ((parse src ps).2 = 0 ↔
      ¬ ∀ p ∈ ps, p.skip_parsing = false → strip (src.raw_text p.id) = []) ∧
    (parse src ps).1 = ps.map (parse_one src) := by
  have hw : words_found src ps
      = ps.any (fun p => !p.skip_parsing && !(strip (src.raw_text p.id)).isEmpty) := by
    simpa using foldl_or_eq _ ps false
  have hkey : (words_found src ps = false) ↔
      ∀ p ∈ ps, p.skip_parsing = false → strip (src.raw_text p.id) = [] := by
    rw [hw]
    simp [List.any_eq_true, List.isEmpty_iff, Bool.not_eq_true']
  cases h : words_found src ps with
  | false =>
    have hP := hkey.mp h
    refine ⟨?_, ?_, rfl⟩
    · simpa [parse, h] using hP
    · simpa [parse, h] using hP
  | true =>
    have hnP : ¬ ∀ p ∈ ps, p.skip_parsing = false → strip (src.raw_text p.id) = [] :=
      fun hp => by rw [hkey.mpr hp] at h; cases h
    refine ⟨?_, ?_, rfl⟩
    · simp [parse, h, hnP]
    · simp [parse, h, hnP]

/-- C9: `parse` writes collaborator-derived width, height, margin, sections and
floating images onto every non-skipped page, and leaves every skipped page
entirely unchanged. -/
theorem C9_frame_effect (src : ContentSource) (ps : List DocPage) (p : DocPage)
    (hp : p ∈ ps) :
    parse_one src p ∈ (parse src ps).1 ∧
    (p.skip_parsing = true → parse_one src p = p) ∧
    (p.skip_parsing = false →
      (parse_one src p).id = p.id ∧
      (parse_one src p).width = src.raw_width p.id ∧
      (parse_one src p).height = src.raw_height p.id ∧
      (parse_one src p).margin = src.calculate_margin p.id ∧
      (parse_one src p).sections = p.sections ++ src.parse_section p.id ∧
      (parse_one src p).float_images = src.floating_image_blocks p.id) := by
  refine ⟨List.mem_map_of_mem _ hp, ?_, ?_⟩
  · intro h
    simp [parse_one, h]
  · intro h
    simp [parse_one, h]

/-- A concrete content source. -/
def exSrc : ContentSource :=
  { raw_text := fun _ => "hi".toList, raw_width := fun _ => 10,
    raw_height := fun _ => 20, floating_image_blocks := fun _ => [1],
    calculate_margin := fun _ => 7, parse_section := fun _ => [2] }

/-- A page with the skip flag set. -/
def exSkipPage : DocPage :=
  { id := 0, skip_parsing := true, width := 0, height := 0, margin := 0,
    sections := [], float_images := [] }

/-- Witness for C9: a skipped page is unchanged by the run. -/
theorem C9_frame_effect_witness : parse_one exSrc exSkipPage = exSkipPage :=
  (C9_frame_effect exSrc [exSkipPage] exSkipPage (by decide)).2.1 rfl

/-- C10: on a single-page document the threshold resolves to 4 while each tally
receives at most 3 counts in total, so no block is classified and a page with
at least one block gets the default boundaries: header 0, footer the page's
bottom edge. -/
theorem C10_single_page_defaults (p : RawPage) (hne : p.blocks ≠ []) :
    threshold ([p] : List RawPage).length = 4 ∧
    (headerSigs p).length ≤ 3 ∧ (footerSigs p).length ≤ 3 ∧
    (∀ s, headerTally [p] s ≤ 3 ∧ footerTally [p] s ≤ 3) ∧
    headerBlocksOf [p] p = [] ∧ footerBlocksOf [p] p = [] ∧
    (parseHeaderFooterPage [p] p).header = 0 ∧
    (parseHeaderFooterPage [p] p).footer = p.bbox3 := by
  have hbe : p.blocks.isEmpty = false := by
    cases h : p.blocks with
    | nil => exact absurd h hne
    | cons _ _ => rfl
  have htally : ∀ s, headerTally [p] s ≤ 3 := by
    intro s
    have : headerTally [p] s = (headerSigs p).count s := by
      simp [headerTally]
    rw [this]
    exact le_trans (List.count_le_length _ _) (headerSigs_length_le p)
  have hftally : ∀ s, footerTally [p] s ≤ 3 := by
    intro s
    have : footerTally [p] s = (footerSigs p).count s := by
      simp [footerTally]
    rw [this]
    exact le_trans (List.count_le_length _ _) (footerSigs_length_le p)
  have hth : threshold ([p] : List RawPage).length = 4 := rfl
  have hhb : headerBlocksOf [p] p = [] := by
    unfold headerBlocksOf
    refine List.filter_eq_nil_iff.mpr ?_
    intro b hb
    cases ht : b.text with
    | none => simp
    | some t =>
      simp only [decide_eq_true_eq]
      rw [hth]
      have := htally (sig t)
      omega
  have hfb : footerBlocksOf [p] p = [] := by
    unfold footerBlocksOf
    refine List.filter_eq_nil_iff.mpr ?_
    intro b hb
    cases ht : b.text with
    | none => simp
    | some t =>
      simp only [decide_eq_true_eq]
      rw [hth]
      have := hftally (sig t)
      omega
  refine ⟨hth, headerSigs_length_le p, footerSigs_length_le p,
    fun s => ⟨htally s, hftally s⟩, hhb, hfb, ?_, ?_⟩
  · simp [parseHeaderFooterPage, hbe, hhb, maxD]
  · simp [parseHeaderFooterPage, hbe, hfb, minD]

/-- Witness for C10 at a page with three blocks. -/
theorem C10_single_page_defaults_witness :
    (parseHeaderFooterPage [exTriPage] exTriPage).header = 0 :=
  (C10_single_page_defaults exTriPage (by decide)).2.2.2.2.2.2.1
